import Mathlib

/-!
Verification of the order-equivalence checker of `master-util`
(`src/validation.py`): the functions `validate_collations` and
`get_test_data`.

`validate_collations` walks a corpus sorted ascending by the first collation
and, for every adjacent pair, issues one comparison query per collation.
Each query returns a pair of booleans `(equal, less_than)`.  The scan fails
fast: if the second collation's result has neither `equal` nor `less_than`
set, the function returns `False` (the "order reversed" case, logged as
"The collations do not place the strings in the same order."); if the two
results differ, it returns `False` (the "comparison mismatch" case, logged
as "The collations do not agree on the comparison result.").  If the scan
completes, it returns `True`.

The embedding models a comparison backend as a function
`α → α → PairResult` (the result of the parameterized `SELECT %s = %s ...,
%s < %s ...` query for a given collation), the scan as a structural
recursion over the corpus list that also records the index and reason of
the first failure and the number of comparator calls issued, and
`get_test_data` as a function of the two table row counts and the fetched
corpus that returns the corpus or the error raised by the first failing
assertion, together with the list of queries executed.
-/

namespace MasterUtil

universe u

variable {α : Type u}

/-- Result of one pairwise comparison query, the tuple
`(equal, less_than)` fetched by `validate_collations` from
`SELECT %s = %s COLLATE c AS equal, %s < %s COLLATE c AS less_than`. -/
structure PairResult where
  equal : Bool
  less_than : Bool
deriving DecidableEq, Repr

/-- Which of the two fail-fast checks of `validate_collations` rejected a
pair: the monotonicity check at validation.py line 93 (`orderReversed`) or
the agreement check at line 102 (`comparisonMismatch`). -/
inductive Reason where
  | orderReversed
  | comparisonMismatch
deriving DecidableEq, Repr

/-- Observable outcome of the adjacent-pair scan of `validate_collations`:
the returned boolean, the loop index `i` and reason of the first failing
pair (`none` when the scan completes), and the number of comparator
queries executed. -/
structure ScanResult where
  verdict : Bool
  failure : Option (Nat × Reason)
  calls : Nat
deriving DecidableEq, Repr

/-- The loop `for i in range(1, len(strings))` of `validate_collations`
(validation.py lines 82-113), started at element `prev = strings[i-1]`
with the remaining elements `rest` and loop counter `i`.  Each iteration
executes the two comparison queries (2 comparator calls), then the
monotonicity check `if not (result2[0] or result2[1]): return False`,
then the agreement check `if result1 != result2: return False`. -/
def scanPairs (cmp1 cmp2 : α → α → PairResult) : α → List α → Nat → ScanResult
  | _, [], _ => ⟨true, none, 0⟩
  | prev, s :: rest, i =>
    let result1 := cmp1 prev s
    let result2 := cmp2 prev s
    if (result2.equal || result2.less_than) = false then
      ⟨false, some (i, Reason.orderReversed), 2⟩
    else if result1 ≠ result2 then
      ⟨false, some (i, Reason.comparisonMismatch), 2⟩
    else
      let r := scanPairs cmp1 cmp2 s rest (i + 1)
      ⟨r.verdict, r.failure, 2 + r.calls⟩

/-- Full outcome of `validate_collations` on a corpus: for an empty or
singleton corpus the loop body never runs (`range(1, len(strings))` is
empty) and the function returns `True` with zero comparator calls. -/
def validationResult (cmp1 cmp2 : α → α → PairResult) (strings : List α) :
    ScanResult :=
  match strings with
  | [] => ⟨true, none, 0⟩
  | s :: rest => scanPairs cmp1 cmp2 s rest 1

/-- The boolean returned by `validate_collations` (validation.py line 8):
`True` when the collations are judged equivalent on the corpus. -/
def validate_collations (cmp1 cmp2 : α → α → PairResult)
    (strings : List α) : Bool :=
  (validationResult cmp1 cmp2 strings).verdict

/-- A pair survives one loop iteration of `validate_collations`: the
second collation's result has `equal` or `less_than` set (monotonicity
check) and the two collations' results are identical tuples (agreement
check). -/
def pairPasses (cmp1 cmp2 : α → α → PairResult) (p : α × α) : Prop :=
  ((cmp2 p.1 p.2).equal || (cmp2 p.1 p.2).less_than) = true ∧
    cmp1 p.1 p.2 = cmp2 p.1 p.2

instance (cmp1 cmp2 : α → α → PairResult) (p : α × α) :
    Decidable (pairPasses cmp1 cmp2 p) := by
  unfold pairPasses
  infer_instance

theorem scanPairs_cons_of_revB (cmp1 cmp2 : α → α → PairResult)
    (prev s : α) (rest : List α) (i : Nat)
    (hB : ((cmp2 prev s).equal || (cmp2 prev s).less_than) = false) :
    scanPairs cmp1 cmp2 prev (s :: rest) i =
      ⟨false, some (i, Reason.orderReversed), 2⟩ := by
  simp only [scanPairs]
  rw [if_pos hB]

theorem scanPairs_cons_of_mismatch (cmp1 cmp2 : α → α → PairResult)
    (prev s : α) (rest : List α) (i : Nat)
    (hB : ((cmp2 prev s).equal || (cmp2 prev s).less_than) = true)
    (hA : cmp1 prev s ≠ cmp2 prev s) :
    scanPairs cmp1 cmp2 prev (s :: rest) i =
      ⟨false, some (i, Reason.comparisonMismatch), 2⟩ := by
  simp only [scanPairs]
  rw [if_neg (by simp [hB]), if_pos hA]

theorem scanPairs_cons_of_pass (cmp1 cmp2 : α → α → PairResult)
    (prev s : α) (rest : List α) (i : Nat)
    (hp : pairPasses cmp1 cmp2 (prev, s)) :
    scanPairs cmp1 cmp2 prev (s :: rest) i =
      ⟨(scanPairs cmp1 cmp2 s rest (i + 1)).verdict,
        (scanPairs cmp1 cmp2 s rest (i + 1)).failure,
        2 + (scanPairs cmp1 cmp2 s rest (i + 1)).calls⟩ := by
  simp only [scanPairs]
  rw [if_neg (by simp [hp.1]), if_neg (by simp [hp.2])]

theorem scanPairs_verdict_iff (cmp1 cmp2 : α → α → PairResult) :
    ∀ (rest : List α) (prev : α) (i : Nat),
      (scanPairs cmp1 cmp2 prev rest i).verdict = true ↔
        ∀ p ∈ (prev :: rest).zip rest, pairPasses cmp1 cmp2 p := by
  intro rest
  induction rest with
  | nil => intro prev i; simp [scanPairs]
  | cons s rest ih =>
    intro prev i
    rw [List.zip_cons_cons]
    by_cases hp : pairPasses cmp1 cmp2 (prev, s)
    · rw [scanPairs_cons_of_pass cmp1 cmp2 prev s rest i hp]
      simp only [List.mem_cons]
      rw [show (⟨(scanPairs cmp1 cmp2 s rest (i + 1)).verdict,
        (scanPairs cmp1 cmp2 s rest (i + 1)).failure,
        2 + (scanPairs cmp1 cmp2 s rest (i + 1)).calls⟩ : ScanResult).verdict =
          (scanPairs cmp1 cmp2 s rest (i + 1)).verdict from rfl]
      rw [ih s (i + 1)]
      constructor
      · intro h p hmem
        rcases hmem with hmem | hmem
        · subst hmem; exact hp
        · exact h p hmem
      · intro h p hmem
        exact h p (Or.inr hmem)
    · have hfail : scanPairs cmp1 cmp2 prev (s :: rest) i =
          ⟨false, some (i, Reason.orderReversed), 2⟩ ∨
          scanPairs cmp1 cmp2 prev (s :: rest) i =
          ⟨false, some (i, Reason.comparisonMismatch), 2⟩ := by
        cases hB : ((cmp2 prev s).equal || (cmp2 prev s).less_than) with
        | false => exact Or.inl (scanPairs_cons_of_revB cmp1 cmp2 prev s rest i hB)
        | true =>
          have hA : cmp1 prev s ≠ cmp2 prev s := by
            intro hA
            exact hp ⟨hB, hA⟩
          exact Or.inr (scanPairs_cons_of_mismatch cmp1 cmp2 prev s rest i hB hA)
      have hverdict : (scanPairs cmp1 cmp2 prev (s :: rest) i).verdict = false := by
        rcases hfail with h | h <;> rw [h]
      rw [hverdict]
      constructor
      · intro h; cases h
      · intro h
        exact absurd (h (prev, s) (List.mem_cons_self _ _)) hp

theorem scanPairs_of_passAll (cmp1 cmp2 : α → α → PairResult) :
    ∀ (rest : List α) (prev : α) (i : Nat),
      (∀ p ∈ (prev :: rest).zip rest, pairPasses cmp1 cmp2 p) →
      scanPairs cmp1 cmp2 prev rest i = ⟨true, none, 2 * rest.length⟩ := by
  intro rest
  induction rest with
  | nil => intro prev i _; rfl
  | cons s rest ih =>
    intro prev i h
    rw [List.zip_cons_cons] at h
    have hp : pairPasses cmp1 cmp2 (prev, s) := h _ (List.mem_cons_self _ _)
    rw [scanPairs_cons_of_pass cmp1 cmp2 prev s rest i hp,
      ih s (i + 1) (fun p hmem => h p (List.mem_cons_of_mem _ hmem))]
    simp [List.length_cons, Nat.mul_succ, Nat.add_comm]

theorem scanPairs_failure_none_spec (cmp1 cmp2 : α → α → PairResult) :
    ∀ (rest : List α) (prev : α) (i : Nat),
      (scanPairs cmp1 cmp2 prev rest i).failure = none →
      (∀ p ∈ (prev :: rest).zip rest, pairPasses cmp1 cmp2 p) ∧
        (scanPairs cmp1 cmp2 prev rest i).verdict = true ∧
        (scanPairs cmp1 cmp2 prev rest i).calls = 2 * rest.length := by
  intro rest
  induction rest with
  | nil => intro prev i _; exact ⟨by simp, rfl, rfl⟩
  | cons s rest ih =>
    intro prev i hnone
    by_cases hp : pairPasses cmp1 cmp2 (prev, s)
    · rw [scanPairs_cons_of_pass cmp1 cmp2 prev s rest i hp] at hnone ⊢
      obtain ⟨hall, hv, hc⟩ := ih s (i + 1) hnone
      refine ⟨?_, hv, ?_⟩
      · rw [List.zip_cons_cons]
        intro p hmem
        rw [List.mem_cons] at hmem
        rcases hmem with hmem | hmem
        · subst hmem; exact hp
        · exact hall p hmem
      · simp only [hc, List.length_cons, Nat.mul_succ]
        omega
    · exfalso
      cases hB : ((cmp2 prev s).equal || (cmp2 prev s).less_than) with
      | false =>
        rw [scanPairs_cons_of_revB cmp1 cmp2 prev s rest i hB] at hnone
        cases hnone
      | true =>
        have hA : cmp1 prev s ≠ cmp2 prev s := fun hA => hp ⟨hB, hA⟩
        rw [scanPairs_cons_of_mismatch cmp1 cmp2 prev s rest i hB hA] at hnone
        cases hnone

theorem scanPairs_failure_some_spec (cmp1 cmp2 : α → α → PairResult) :
    ∀ (rest : List α) (prev : α) (i j : Nat) (r : Reason),
      (scanPairs cmp1 cmp2 prev rest i).failure = some (j, r) →
      i ≤ j ∧
        (∃ p, ((prev :: rest).zip rest)[j - i]? = some p ∧
          ((r = Reason.orderReversed ∧
              ((cmp2 p.1 p.2).equal || (cmp2 p.1 p.2).less_than) = false) ∨
            (r = Reason.comparisonMismatch ∧
              ((cmp2 p.1 p.2).equal || (cmp2 p.1 p.2).less_than) = true ∧
              cmp1 p.1 p.2 ≠ cmp2 p.1 p.2))) ∧
        (∀ k q, k < j - i → ((prev :: rest).zip rest)[k]? = some q →
          pairPasses cmp1 cmp2 q) ∧
        (scanPairs cmp1 cmp2 prev rest i).calls = 2 * (j - i + 1) ∧
        (scanPairs cmp1 cmp2 prev rest i).verdict = false := by
  intro rest
  induction rest with
  | nil => intro prev i j r h; cases h
  | cons s rest ih =>
    intro prev i j r hsome
    by_cases hp : pairPasses cmp1 cmp2 (prev, s)
    · rw [scanPairs_cons_of_pass cmp1 cmp2 prev s rest i hp] at hsome ⊢
      obtain ⟨hij, ⟨p, hget, hcase⟩, hearlier, hcalls, hv⟩ :=
        ih s (i + 1) j r hsome
      have hij' : i ≤ j := Nat.le_of_succ_le hij
      have hsub : j - i = (j - (i + 1)) + 1 := by omega
      refine ⟨hij', ⟨p, ?_, hcase⟩, ?_, ?_, hv⟩
      · rw [List.zip_cons_cons, hsub, List.getElem?_cons_succ]
        exact hget
      · intro k q hk hq
        rw [List.zip_cons_cons] at hq
        cases k with
        | zero =>
          rw [List.getElem?_cons_zero] at hq
          cases hq
          exact hp
        | succ k =>
          rw [List.getElem?_cons_succ] at hq
          exact hearlier k q (by omega) hq
      · simp only [hcalls]
        omega
    · cases hB : ((cmp2 prev s).equal || (cmp2 prev s).less_than) with
      | false =>
        rw [scanPairs_cons_of_revB cmp1 cmp2 prev s rest i hB] at hsome ⊢
        injection hsome with hsome
        injection hsome with hj hr
        subst hj; subst hr
        refine ⟨Nat.le_refl i, ⟨(prev, s), ?_, Or.inl ⟨rfl, hB⟩⟩, ?_, ?_, rfl⟩
        · rw [List.zip_cons_cons]
          simp
        · intro k q hk _
          omega
        · simp
      | true =>
        have hA : cmp1 prev s ≠ cmp2 prev s := fun hA => hp ⟨hB, hA⟩
        rw [scanPairs_cons_of_mismatch cmp1 cmp2 prev s rest i hB hA] at hsome ⊢
        injection hsome with hsome
        injection hsome with hj hr
        subst hj; subst hr
        refine ⟨Nat.le_refl i, ⟨(prev, s), ?_, Or.inr ⟨rfl, hB, hA⟩⟩, ?_, ?_, rfl⟩
        · rw [List.zip_cons_cons]
          simp
        · intro k q hk _
          omega
        · simp

theorem scanPairs_congr (cmp1 cmp2 cmp1' cmp2' : α → α → PairResult) :
    ∀ (rest : List α) (prev : α) (i : Nat),
      (∀ p ∈ (prev :: rest).zip rest, cmp2 p.1 p.2 = cmp2' p.1 p.2) →
      (∀ p ∈ (prev :: rest).zip rest,
        (cmp1 p.1 p.2 = cmp2 p.1 p.2) ↔ (cmp1' p.1 p.2 = cmp2' p.1 p.2)) →
      scanPairs cmp1 cmp2 prev rest i = scanPairs cmp1' cmp2' prev rest i := by
  intro rest
  induction rest with
  | nil => intro prev i _ _; rfl
  | cons s rest ih =>
    intro prev i hB2 hEq
    rw [List.zip_cons_cons] at hB2 hEq
    have hB2' : cmp2 prev s = cmp2' prev s :=
      hB2 _ (List.mem_cons_self _ _)
    have hEq' : (cmp1 prev s = cmp2 prev s) ↔ (cmp1' prev s = cmp2' prev s) :=
      hEq _ (List.mem_cons_self _ _)
    cases hB : ((cmp2 prev s).equal || (cmp2 prev s).less_than) with
    | false =>
      rw [scanPairs_cons_of_revB cmp1 cmp2 prev s rest i hB,
        scanPairs_cons_of_revB cmp1' cmp2' prev s rest i (hB2' ▸ hB)]
    | true =>
      by_cases hA : cmp1 prev s = cmp2 prev s
      · rw [scanPairs_cons_of_pass cmp1 cmp2 prev s rest i ⟨hB, hA⟩,
          scanPairs_cons_of_pass cmp1' cmp2' prev s rest i
            ⟨hB2' ▸ hB, hEq'.mp hA⟩,
          ih s (i + 1) (fun p hmem => hB2 p (List.mem_cons_of_mem _ hmem))
            (fun p hmem => hEq p (List.mem_cons_of_mem _ hmem))]
      · rw [scanPairs_cons_of_mismatch cmp1 cmp2 prev s rest i hB hA,
          scanPairs_cons_of_mismatch cmp1' cmp2' prev s rest i
            (hB2' ▸ hB) (fun h => hA (hEq'.mpr h))]

/-- Characterization of the boolean verdict: the scan returns `True`
exactly when every adjacent pair passes both checks. -/
theorem validate_true_iff_pairs (cmp1 cmp2 : α → α → PairResult)
    (strings : List α) :
    validate_collations cmp1 cmp2 strings = true ↔
      ∀ p ∈ strings.zip strings.tail,
        ((cmp2 p.1 p.2).equal || (cmp2 p.1 p.2).less_than) = true ∧
          cmp1 p.1 p.2 = cmp2 p.1 p.2 := by
  cases strings with
  | nil => simp [validate_collations, validationResult]
  | cons s rest =>
    simpa [validate_collations, validationResult, pairPasses] using
      scanPairs_verdict_iff cmp1 cmp2 rest s 1

/-- C1: for every corpus and every assignment of comparator results to its
adjacent pairs, `validate_collations` returns `True` if and only if, for
every adjacent pair `(s[i-1], s[i])`, the second ordering's result
satisfies `equal OR less_than` and the first ordering's result is the
identical pair to the second ordering's result; otherwise it returns
`False`. -/
theorem validate_collations_true_iff (cmp1 cmp2 : α → α → PairResult)
    (strings : List α) :
    validate_collations cmp1 cmp2 strings = true ↔
      ∀ p ∈ strings.zip strings.tail,
        ((cmp2 p.1 p.2).equal || (cmp2 p.1 p.2).less_than) = true ∧
          cmp1 p.1 p.2 = cmp2 p.1 p.2 :=
  validate_true_iff_pairs cmp1 cmp2 strings

/-- C5: on a corpus of exactly one string the scan of
`validate_collations` returns `True` with zero comparator calls and no
recorded failure. -/
theorem validate_singleton (cmp1 cmp2 : α → α → PairResult) (s : α) :
    validationResult cmp1 cmp2 [s] = ⟨true, none, 0⟩ ∧
      validate_collations cmp1 cmp2 [s] = true := by
  exact ⟨rfl, rfl⟩

/-- A collation modeled as a deterministic sort-key function `rank`: the
comparison query of `validate_collations` reports `equal` exactly when the
two sort keys coincide and `less_than` exactly when the first key is
strictly smaller.  This is the comparator contract
`(s1, s2, ordering) -> (equal, lessThan)` of a deterministic total
ordering. -/
def compareRank (rank : α → Nat) (s1 s2 : α) : PairResult :=
  ⟨decide (rank s1 = rank s2), decide (rank s1 < rank s2)⟩

/-- Orderings `rA` and `rB` classify the ordered pair `(x, y)` the same
way: they agree on equality, on `x` strictly before `y`, and on `y`
strictly before `x`. -/
def ranksAgree (rA rB : α → Nat) (x y : α) : Prop :=
  (rA x = rA y ↔ rB x = rB y) ∧ (rA x < rA y ↔ rB x < rB y) ∧
    (rA y < rA x ↔ rB y < rB x)

theorem ranksAgree_swap (rA rB : α → Nat) (x y : α) :
    ranksAgree rA rB x y ↔ ranksAgree rB rA x y := by
  unfold ranksAgree
  constructor <;> exact fun h => ⟨h.1.symm, h.2.1.symm, h.2.2.symm⟩

theorem ranksAgree_refl (rA rB : α → Nat) (x : α) : ranksAgree rA rB x x :=
  ⟨by simp, by simp, by simp⟩

theorem ranksAgree_symm (rA rB : α → Nat) (x y : α)
    (h : ranksAgree rA rB x y) : ranksAgree rA rB y x := by
  refine ⟨?_, h.2.2, h.2.1⟩
  constructor
  · intro h1; exact (h.1.mp h1.symm).symm
  · intro h1; exact (h.1.mpr h1.symm).symm

theorem compareRank_eq_iff (rA rB : α → Nat) (x y : α) :
    compareRank rA x y = compareRank rB x y ↔
      ((rA x = rA y ↔ rB x = rB y) ∧ (rA x < rA y ↔ rB x < rB y)) := by
  unfold compareRank
  rw [PairResult.mk.injEq, decide_eq_decide, decide_eq_decide]

theorem chain'_iff_forall_zip (R : α → α → Prop) :
    ∀ (l : List α), List.Chain' R l ↔ ∀ p ∈ l.zip l.tail, R p.1 p.2 := by
  intro l
  induction l with
  | nil => simp
  | cons a l ih =>
    cases l with
    | nil => simp
    | cons b m =>
      rw [List.tail_cons, List.zip_cons_cons, List.chain'_cons, ih,
        List.tail_cons, List.forall_mem_cons]

theorem mem_of_mem_zip_tail :
    ∀ (l : List α) (p : α × α), p ∈ l.zip l.tail → p.1 ∈ l ∧ p.2 ∈ l := by
  intro l
  induction l with
  | nil => intro p h; cases h
  | cons a l ih =>
    cases l with
    | nil => intro p h; cases h
    | cons b m =>
      intro p h
      rw [List.tail_cons, List.zip_cons_cons, List.mem_cons] at h
      rcases h with h | h
      · subst h
        exact ⟨List.mem_cons_self _ _, List.mem_cons_of_mem _ (List.mem_cons_self _ _)⟩
      · have := ih p (by rw [List.tail_cons]; exact h)
        exact ⟨List.mem_cons_of_mem _ this.1, List.mem_cons_of_mem _ this.2⟩

/-- Transitivity of "weakly increasing under `rA` and classified the same
way by both orderings", the relation propagated along the chain of
adjacent pairs of the sorted corpus. -/
theorem sortedAgree_trans (rA rB : α → Nat) :
    Transitive (fun x y => rA x ≤ rA y ∧ ranksAgree rA rB x y) := by
  intro x y z hxy hyz
  have hxyle := hxy.1
  have hxyeq := hxy.2.1
  have hxylt := hxy.2.2.1
  have hyzle := hyz.1
  have hyzeq := hyz.2.1
  have hyzlt := hyz.2.2.1
  have hxzle : rA x ≤ rA z := Nat.le_trans hxyle hyzle
  have hBxy : rB x ≤ rB y := by
    rcases Nat.lt_or_ge (rA x) (rA y) with h | h
    · exact Nat.le_of_lt (hxylt.mp h)
    · have : rA x = rA y := Nat.le_antisymm hxyle h
      exact Nat.le_of_eq (hxyeq.mp this)
  have hByz : rB y ≤ rB z := by
    rcases Nat.lt_or_ge (rA y) (rA z) with h | h
    · exact Nat.le_of_lt (hyzlt.mp h)
    · have : rA y = rA z := Nat.le_antisymm hyzle h
      exact Nat.le_of_eq (hyzeq.mp this)
  have heq : rA x = rA z ↔ rB x = rB z := by
    constructor
    · intro h
      have h1 : rA x = rA y := Nat.le_antisymm hxyle (h ▸ hyzle)
      have h2 : rA y = rA z := Nat.le_antisymm hyzle (h ▸ hxyle)
      exact (hxyeq.mp h1).trans (hyzeq.mp h2)
    · intro h
      have h1 : rB x = rB y := Nat.le_antisymm hBxy (h ▸ hByz)
      have h2 : rB y = rB z := Nat.le_antisymm hByz (h ▸ hBxy)
      exact (hxyeq.mpr h1).trans (hyzeq.mpr h2)
  have hlt : rA x < rA z ↔ rB x < rB z := by
    constructor
    · intro h
      rcases Nat.lt_or_ge (rA x) (rA y) with h1 | h1
      · exact Nat.lt_of_lt_of_le (hxylt.mp h1) hByz
      · have hxyEq : rA x = rA y := Nat.le_antisymm hxyle h1
        have h2 : rA y < rA z := Nat.lt_of_le_of_lt (Nat.le_of_eq hxyEq.symm) h
        exact Nat.lt_of_le_of_lt (Nat.le_of_eq (hxyeq.mp hxyEq)) (hyzlt.mp h2)
    · intro h
      rcases Nat.lt_or_ge (rA x) (rA z) with h1 | h1
      · exact h1
      · have : rA x = rA z := Nat.le_antisymm hxzle h1
        exact absurd (heq.mp this ▸ h) (Nat.lt_irrefl _)
  refine ⟨hxzle, heq, hlt, ?_⟩
  constructor
  · intro h; exact absurd (Nat.lt_of_le_of_lt hxzle h) (Nat.lt_irrefl _)
  · intro h
    have hBxz : rB x ≤ rB z := Nat.le_trans hBxy hByz
    exact absurd (Nat.lt_of_le_of_lt hBxz h) (Nat.lt_irrefl _)

/-- The scan of `validate_collations` over a corpus sorted weakly
ascending by `rA` succeeds exactly when the two orderings classify every
pair of corpus elements the same way: the adjacent-pair checks suffice
for global agreement (the core algorithmic fact behind the symmetry of
the verdict). -/
theorem validate_true_iff_agree_all (rA rB : α → Nat) (l : List α)
    (hchain : List.Chain' (fun a b => rA a ≤ rA b) l) :
    validate_collations (compareRank rA) (compareRank rB) l = true ↔
      ∀ x ∈ l, ∀ y ∈ l, ranksAgree rA rB x y := by
  constructor
  · intro hv
    have hpairs := (validate_true_iff_pairs
      (compareRank rA) (compareRank rB) l).mp hv
    have hchainzip := (chain'_iff_forall_zip
      (fun a b => rA a ≤ rA b) l).mp hchain
    have hchainR : List.Chain'
        (fun x y => rA x ≤ rA y ∧ ranksAgree rA rB x y) l := by
      rw [chain'_iff_forall_zip]
      intro p hp
      have hle : rA p.1 ≤ rA p.2 := hchainzip p hp
      obtain ⟨hok, hsame⟩ := hpairs p hp
      obtain ⟨heq, hlt⟩ := (compareRank_eq_iff rA rB p.1 p.2).mp hsame
      have hBle : rB p.1 ≤ rB p.2 := by
        rcases Nat.lt_or_ge (rA p.1) (rA p.2) with h | h
        · exact Nat.le_of_lt (hlt.mp h)
        · exact Nat.le_of_eq (heq.mp (Nat.le_antisymm hle h))
      refine ⟨hle, heq, hlt, ?_⟩
      constructor
      · intro h; exact absurd (Nat.lt_of_le_of_lt hle h) (Nat.lt_irrefl _)
      · intro h; exact absurd (Nat.lt_of_le_of_lt hBle h) (Nat.lt_irrefl _)
    haveI : IsTrans α (fun x y => rA x ≤ rA y ∧ ranksAgree rA rB x y) :=
      ⟨fun _ _ _ h1 h2 => sortedAgree_trans rA rB h1 h2⟩
    have hpw := List.chain'_iff_pairwise.mp hchainR
    have hpwAgree : l.Pairwise (ranksAgree rA rB) :=
      hpw.imp (fun h => h.2)
    exact fun x hx y hy =>
      List.Pairwise.forall_of_forall
        (fun a b h => ranksAgree_symm rA rB a b h)
        (fun a _ => ranksAgree_refl rA rB a) hpwAgree hx hy
  · intro hagree
    rw [validate_true_iff_pairs]
    intro p hp
    obtain ⟨h1, h2⟩ := mem_of_mem_zip_tail l p hp
    have hle : rA p.1 ≤ rA p.2 :=
      (chain'_iff_forall_zip (fun a b => rA a ≤ rA b) l).mp hchain p hp
    obtain ⟨heq, hlt, _⟩ := hagree p.1 h1 p.2 h2
    constructor
    · rcases Nat.lt_or_ge (rA p.1) (rA p.2) with h | h
      · have : rB p.1 < rB p.2 := hlt.mp h
        simp [compareRank, this]
      · have : rB p.1 = rB p.2 := heq.mp (Nat.le_antisymm hle h)
        simp [compareRank, this]
    · exact (compareRank_eq_iff rA rB p.1 p.2).mpr ⟨heq, hlt⟩

/-- C6: for any non-empty corpus sorted weakly ascending by an ordering O
(modeled as the sort-key function `r`), `validate_collations` called with
O's deterministic comparator on both sides returns `True`. -/
theorem checkEquivalence_refl (r : α → Nat) (l : List α) (hne : l ≠ [])
    (hchain : List.Chain' (fun a b => r a ≤ r b) l) :
    validate_collations (compareRank r) (compareRank r) l = true :=
  (validate_true_iff_agree_all r r l hchain).mpr
    (fun x _ y _ => ⟨Iff.rfl, Iff.rfl, Iff.rfl⟩)

theorem checkEquivalence_refl_witness :
    ([0, 1, 1, 3] : List Nat) ≠ [] ∧
      validate_collations (compareRank (fun n => n)) (compareRank (fun n => n))
        ([0, 1, 1, 3] : List Nat) = true :=
  ⟨by decide,
    checkEquivalence_refl (fun n => n) [0, 1, 1, 3] (by decide)
      (by simp [List.chain'_cons])⟩

/-- C7: for any corpus and any two orderings whose comparators are
deterministic total orders (modeled as sort-key functions `rA` and `rB`),
checking A against B on a corpus permutation sorted by A and checking B
against A on a corpus permutation sorted by B report the same boolean
verdict. -/
theorem checkEquivalence_symm (rA rB : α → Nat) (listA listB : List α)
    (hperm : listA.Perm listB)
    (hsA : List.Chain' (fun a b => rA a ≤ rA b) listA)
    (hsB : List.Chain' (fun a b => rB a ≤ rB b) listB) :
    validate_collations (compareRank rA) (compareRank rB) listA =
      validate_collations (compareRank rB) (compareRank rA) listB := by
  have h1 := validate_true_iff_agree_all rA rB listA hsA
  have h2 := validate_true_iff_agree_all rB rA listB hsB
  have hbr : (∀ x ∈ listA, ∀ y ∈ listA, ranksAgree rA rB x y) ↔
      (∀ x ∈ listB, ∀ y ∈ listB, ranksAgree rB rA x y) := by
    constructor
    · intro h x hx y hy
      exact (ranksAgree_swap rA rB x y).mp
        (h x (hperm.mem_iff.mpr hx) y (hperm.mem_iff.mpr hy))
    · intro h x hx y hy
      exact (ranksAgree_swap rB rA x y).mp
        (h x (hperm.mem_iff.mp hx) y (hperm.mem_iff.mp hy))
  cases hA : validate_collations (compareRank rA) (compareRank rB) listA with
  | true => exact (h2.mpr (hbr.mp (h1.mp hA))).symm
  | false =>
    cases hB : validate_collations (compareRank rB) (compareRank rA) listB with
    | false => rfl
    | true =>
      have := h1.mpr (hbr.mpr (h2.mp hB))
      rw [hA] at this
      cases this

theorem checkEquivalence_symm_witness :
    ([2, 1, 0] : List Nat).Perm [2, 1, 0] ∧
      validate_collations (compareRank (fun n => 5 - n))
          (compareRank (fun n => 10 - n)) ([2, 1, 0] : List Nat) =
        validate_collations (compareRank (fun n => 10 - n))
          (compareRank (fun n => 5 - n)) ([2, 1, 0] : List Nat) := by
  refine ⟨List.Perm.refl _, ?_⟩
  exact checkEquivalence_symm (fun n => 5 - n) (fun n => 10 - n)
    [2, 1, 0] [2, 1, 0] (List.Perm.refl _)
    (by simp [List.chain'_cons]) (by simp [List.chain'_cons])

/-- C3: the scan is fail-fast with exactly 2 comparator calls per scanned
pair.  If the scan records a failure at loop index `i`, the verdict is
`False`, pair `i` (the `i - 1`-th adjacent pair, 0-based) fails one of the
two checks, every earlier pair passes both (so `i` is the lowest failing
index), and exactly `2 * i` comparator calls were issued (2 for each of
the `i` pairs scanned, none for later pairs).  If no failure is recorded,
the verdict is `True`, every adjacent pair passes and exactly
`2 * (n - 1)` calls were issued. -/
theorem validate_fail_fast (cmp1 cmp2 : α → α → PairResult) (l : List α) :
    (∀ i r, (validationResult cmp1 cmp2 l).failure = some (i, r) →
      (validationResult cmp1 cmp2 l).verdict = false ∧ 1 ≤ i ∧
        (∃ p, (l.zip l.tail)[i - 1]? = some p ∧ ¬ pairPasses cmp1 cmp2 p) ∧
        (∀ k q, k < i - 1 → (l.zip l.tail)[k]? = some q →
          pairPasses cmp1 cmp2 q) ∧
        (validationResult cmp1 cmp2 l).calls = 2 * i) ∧
    ((validationResult cmp1 cmp2 l).failure = none →
      (validationResult cmp1 cmp2 l).verdict = true ∧
        (∀ p ∈ l.zip l.tail, pairPasses cmp1 cmp2 p) ∧
        (validationResult cmp1 cmp2 l).calls = 2 * (l.length - 1)) ∧
    (∀ p ∈ l.zip l.tail, ¬ pairPasses cmp1 cmp2 p →
      (validationResult cmp1 cmp2 l).verdict = false) := by
  have hfails : ∀ p ∈ l.zip l.tail, ¬ pairPasses cmp1 cmp2 p →
      (validationResult cmp1 cmp2 l).verdict = false := by
    intro p hp hfail
    cases hv : (validationResult cmp1 cmp2 l).verdict with
    | false => rfl
    | true =>
      have hv' : validate_collations cmp1 cmp2 l = true := hv
      exact absurd ((validate_true_iff_pairs cmp1 cmp2 l).mp hv' p hp) hfail
  cases l with
  | nil =>
    refine ⟨?_, ?_, hfails⟩
    · intro i r h; cases h
    · intro _; exact ⟨rfl, by simp, rfl⟩
  | cons s rest =>
    refine ⟨?_, ?_, hfails⟩
    · intro i r hsome
      obtain ⟨hli, ⟨p, hget, hcase⟩, hearlier, hcalls, hv⟩ :=
        scanPairs_failure_some_spec cmp1 cmp2 rest s 1 i r hsome
      refine ⟨hv, hli, ⟨p, hget, ?_⟩, hearlier, ?_⟩
      · rcases hcase with ⟨_, hB⟩ | ⟨_, hB, hA⟩
        · intro hpass
          rw [hpass.1] at hB
          cases hB
        · exact fun hpass => hA hpass.2
      · show (scanPairs cmp1 cmp2 s rest 1).calls = 2 * i
        omega
    · intro hnone
      obtain ⟨hall, hv, hc⟩ :=
        scanPairs_failure_none_spec cmp1 cmp2 rest s 1 hnone
      refine ⟨hv, hall, ?_⟩
      show (scanPairs cmp1 cmp2 s rest 1).calls = 2 * ((s :: rest).length - 1)
      rw [hc]
      simp [List.length_cons]

theorem validate_fail_fast_witness :
    (validationResult (compareRank (fun n => n)) (compareRank (fun n => n))
        ([0, 2, 1, 5] : List Nat)).failure =
          some (2, Reason.orderReversed) ∧
      ((validationResult (compareRank (fun n => n)) (compareRank (fun n => n))
          ([0, 2, 1, 5] : List Nat)).verdict = false ∧ 1 ≤ 2 ∧
        (∃ p, (([0, 2, 1, 5] : List Nat).zip
            ([0, 2, 1, 5] : List Nat).tail)[2 - 1]? = some p ∧
          ¬ pairPasses (compareRank (fun n => n)) (compareRank (fun n => n)) p) ∧
        (∀ k q, k < 2 - 1 → (([0, 2, 1, 5] : List Nat).zip
            ([0, 2, 1, 5] : List Nat).tail)[k]? = some q →
          pairPasses (compareRank (fun n => n)) (compareRank (fun n => n)) q) ∧
        (validationResult (compareRank (fun n => n)) (compareRank (fun n => n))
          ([0, 2, 1, 5] : List Nat)).calls = 2 * 2) :=
  ⟨by decide,
    (validate_fail_fast (compareRank (fun n => n)) (compareRank (fun n => n))
      [0, 2, 1, 5]).1 2 Reason.orderReversed (by decide)⟩

theorem scanPairs_eq_of_revB_at (cmp1 cmp2 : α → α → PairResult) :
    ∀ (rest : List α) (prev : α) (i k : Nat) (p : α × α),
      ((prev :: rest).zip rest)[k]? = some p →
      (∀ m q, m < k → ((prev :: rest).zip rest)[m]? = some q →
        pairPasses cmp1 cmp2 q) →
      ((cmp2 p.1 p.2).equal || (cmp2 p.1 p.2).less_than) = false →
      scanPairs cmp1 cmp2 prev rest i =
        ⟨false, some (i + k, Reason.orderReversed), 2 * (k + 1)⟩ := by
  intro rest
  induction rest with
  | nil => intro prev i k p hget _ _; rw [List.zip_nil_right] at hget; cases hget
  | cons s rest ih =>
    intro prev i k p hget hearlier hB
    rw [List.zip_cons_cons] at hget
    cases k with
    | zero =>
      rw [List.getElem?_cons_zero] at hget
      injection hget with hget
      subst hget
      rw [scanPairs_cons_of_revB cmp1 cmp2 prev s rest i hB]
      rfl
    | succ k =>
      rw [List.getElem?_cons_succ] at hget
      have hp : pairPasses cmp1 cmp2 (prev, s) := by
        refine hearlier 0 (prev, s) (Nat.succ_pos k) ?_
        rw [List.zip_cons_cons, List.getElem?_cons_zero]
      rw [scanPairs_cons_of_pass cmp1 cmp2 prev s rest i hp,
        ih s (i + 1) k p hget ?_ hB]
      · have h1 : i + 1 + k = i + (k + 1) := by omega
        rw [h1]
        simp only [ScanResult.mk.injEq]
        refine ⟨trivial, trivial, ?_⟩
        show 2 + 2 * (k + 1) = 2 * (k + 1 + 1)
        omega
      · intro m q hm hq
        refine hearlier (m + 1) q (by omega) ?_
        rw [List.zip_cons_cons, List.getElem?_cons_succ]
        exact hq

/-- C8: the monotonicity check is evaluated before the agreement check on
every scanned pair.  On the lowest-index adjacent pair failing both checks
(the second ordering's result has neither flag set, and the two results
differ) the checker records reason `orderReversed` ("The collations do not
place the strings in the same order.") and returns immediately, with
no comparator calls issued past that pair. -/
theorem validate_order_reversed_first (cmp1 cmp2 : α → α → PairResult)
    (l : List α) (k : Nat) (p : α × α)
    (hget : (l.zip l.tail)[k]? = some p)
    (hearlier : ∀ m q, m < k → (l.zip l.tail)[m]? = some q →
      pairPasses cmp1 cmp2 q)
    (hB : ((cmp2 p.1 p.2).equal || (cmp2 p.1 p.2).less_than) = false)
    (hA : cmp1 p.1 p.2 ≠ cmp2 p.1 p.2) :
    validationResult cmp1 cmp2 l =
      ⟨false, some (k + 1, Reason.orderReversed), 2 * (k + 1)⟩ := by
  cases l with
  | nil => simp at hget
  | cons s rest =>
    have := scanPairs_eq_of_revB_at cmp1 cmp2 rest s 1 k p hget hearlier hB
    rw [show (1 : Nat) + k = k + 1 from Nat.add_comm 1 k] at this
    exact this

theorem validate_order_reversed_first_witness :
    validationResult (compareRank (fun n => n)) (compareRank (fun n => 9 - n))
        ([0, 1] : List Nat) =
      ⟨false, some (0 + 1, Reason.orderReversed), 2 * (0 + 1)⟩ :=
  validate_order_reversed_first (compareRank (fun n => n))
    (compareRank (fun n => 9 - n)) [0, 1] 0 (0, 1) (by decide)
    (fun m q hm _ => absurd hm (Nat.not_lt_zero m)) (by decide) (by decide)

/-- C9: the verdict depends on the first ordering's results only through
the per-pair exact-equality test `result1 == result2`.  Two runs on the
same corpus whose second-ordering results are identical pair-by-pair and
whose per-pair equality outcomes agree produce the identical scan outcome
(verdict, failing index and reason, and call count); and a failure
recorded by the monotonicity check at index `i` always comes from the
second ordering's result at that pair having neither flag set — the first
ordering's own result (even `equal=false, less_than=false`) never triggers
it. -/
theorem validate_depends_only_on_B_and_agreement
    (cmp1 cmp2 cmp1' cmp2' : α → α → PairResult) (l : List α)
    (hB2 : ∀ p ∈ l.zip l.tail, cmp2 p.1 p.2 = cmp2' p.1 p.2)
    (hEq : ∀ p ∈ l.zip l.tail,
      (cmp1 p.1 p.2 = cmp2 p.1 p.2) ↔ (cmp1' p.1 p.2 = cmp2' p.1 p.2)) :
    validationResult cmp1 cmp2 l = validationResult cmp1' cmp2' l ∧
      (∀ i, (validationResult cmp1 cmp2 l).failure =
          some (i, Reason.orderReversed) →
        ∃ p, (l.zip l.tail)[i - 1]? = some p ∧
          ((cmp2 p.1 p.2).equal || (cmp2 p.1 p.2).less_than) = false) := by
  constructor
  · cases l with
    | nil => rfl
    | cons s rest => exact scanPairs_congr cmp1 cmp2 cmp1' cmp2' rest s 1 hB2 hEq
  · intro i hsome
    cases l with
    | nil => cases hsome
    | cons s rest =>
      obtain ⟨_, ⟨p, hget, hcase⟩, _, _, _⟩ :=
        scanPairs_failure_some_spec cmp1 cmp2 rest s 1 i
          Reason.orderReversed hsome
      refine ⟨p, hget, ?_⟩
      rcases hcase with ⟨_, hB⟩ | ⟨hr, _⟩
      · exact hB
      · cases hr

theorem validate_depends_only_on_B_and_agreement_witness :
    validationResult (compareRank (fun n => n)) (compareRank (fun n => n))
        ([0, 1, 1] : List Nat) =
      validationResult (compareRank (fun n => 2 * n))
        (compareRank (fun n => 2 * n)) ([0, 1, 1] : List Nat) :=
  (validate_depends_only_on_B_and_agreement
    (compareRank (fun n => n)) (compareRank (fun n => n))
    (compareRank (fun n => 2 * n)) (compareRank (fun n => 2 * n))
    [0, 1, 1] (by decide) (by decide)).1

/-- C2 counterexample: the code has no malformed-comparator detection.  A
comparator returning `(equal := true, less_than := true)` on every pair is
silently treated as a match: `validate_collations` returns `True`, the
scan records no failure of any kind, and the only outcomes the function
can produce are the booleans `True` and `False` — nothing distinct from a
`NotEquivalent` verdict is ever raised. -/
theorem malformed_result_not_detected :
    validate_collations
        (fun _ _ : Nat => PairResult.mk true true)
        (fun _ _ : Nat => PairResult.mk true true) ([0, 1] : List Nat) = true ∧
      validationResult
        (fun _ _ : Nat => PairResult.mk true true)
        (fun _ _ : Nat => PairResult.mk true true) ([0, 1] : List Nat) =
          ⟨true, none, 2⟩ := by
  exact ⟨by decide, by decide⟩

/-- C2 amended: when the comparator returns
`(equal := true, less_than := true)` for an adjacent pair, the scan of
`validate_collations` raises nothing: the pair passes the monotonicity
check, and when both orderings return the identical malformed result the
agreement check also passes, so the scan simply continues to the next
pair. -/
theorem malformed_pair_treated_as_match (cmp1 cmp2 : α → α → PairResult)
    (prev s : α) (rest : List α) (i : Nat)
    (h2 : cmp2 prev s = ⟨true, true⟩) (h1 : cmp1 prev s = cmp2 prev s) :
    scanPairs cmp1 cmp2 prev (s :: rest) i =
      ⟨(scanPairs cmp1 cmp2 s rest (i + 1)).verdict,
        (scanPairs cmp1 cmp2 s rest (i + 1)).failure,
        2 + (scanPairs cmp1 cmp2 s rest (i + 1)).calls⟩ :=
  scanPairs_cons_of_pass cmp1 cmp2 prev s rest i ⟨by rw [h2]; rfl, h1⟩

theorem malformed_pair_treated_as_match_witness :
    scanPairs (fun _ _ : Nat => PairResult.mk true true)
        (fun _ _ : Nat => PairResult.mk true true) 0 [1] 1 =
      ⟨(scanPairs (fun _ _ : Nat => PairResult.mk true true)
          (fun _ _ : Nat => PairResult.mk true true) 1 [] 2).verdict,
        (scanPairs (fun _ _ : Nat => PairResult.mk true true)
          (fun _ _ : Nat => PairResult.mk true true) 1 [] 2).failure,
        2 + (scanPairs (fun _ _ : Nat => PairResult.mk true true)
          (fun _ _ : Nat => PairResult.mk true true) 1 [] 2).calls⟩ :=
  malformed_pair_treated_as_match
    (fun _ _ : Nat => PairResult.mk true true)
    (fun _ _ : Nat => PairResult.mk true true) 0 1 [] 1 rfl rfl

/-- A query executed by `get_test_data`, in the order the code issues
them: one `SELECT COUNT(*)` per test table, then the
`UNION ... ORDER BY` corpus fetch. -/
inductive DbQuery where
  | countRows (table : String)
  | fetchCorpus
deriving DecidableEq, Repr

/-- The assertion of `get_test_data` that aborts the call: the
`assert count > 0` in the per-table loop (validation.py line 191) or the
`assert len(strings) > 0` after the corpus fetch (line 206). -/
inductive CorpusError where
  | emptyTable (table : String)
  | emptyCorpus
deriving DecidableEq, Repr

/-- The function `get_test_data` (validation.py lines 180-207), modeled on
the row counts the two `COUNT(*)` queries would report and the list of
strings the corpus fetch would return.  The code counts the rows of
`sample_strings` and of `unicode_characters` in that order and asserts
each count positive, then fetches the combined sorted corpus and asserts
it non-empty before returning it.  The second component records the
queries executed before the function returned or raised. -/
def get_test_data (rowCount : String → Nat) (corpus : List String) :
    Except CorpusError (List String) × List DbQuery :=
  if rowCount "sample_strings" = 0 then
    (Except.error (CorpusError.emptyTable "sample_strings"),
      [DbQuery.countRows "sample_strings"])
  else if rowCount "unicode_characters" = 0 then
    (Except.error (CorpusError.emptyTable "unicode_characters"),
      [DbQuery.countRows "sample_strings",
        DbQuery.countRows "unicode_characters"])
  else if corpus.length = 0 then
    (Except.error CorpusError.emptyCorpus,
      [DbQuery.countRows "sample_strings",
        DbQuery.countRows "unicode_characters", DbQuery.fetchCorpus])
  else
    (Except.ok corpus,
      [DbQuery.countRows "sample_strings",
        DbQuery.countRows "unicode_characters", DbQuery.fetchCorpus])

/-- C4: whenever the data source yields zero rows, `get_test_data` fails
instead of returning a sequence (with the empty-corpus assertion when
both table counts pass); and every successful return has length at least
one. -/
theorem get_test_data_empty_fails (rowCount : String → Nat)
    (corpus : List String) :
    (corpus = [] → (∀ l, (get_test_data rowCount corpus).1 ≠ Except.ok l) ∧
      (rowCount "sample_strings" ≠ 0 → rowCount "unicode_characters" ≠ 0 →
        (get_test_data rowCount corpus).1 =
          Except.error CorpusError.emptyCorpus)) ∧
    (∀ l, (get_test_data rowCount corpus).1 = Except.ok l → 1 ≤ l.length) := by
  unfold get_test_data
  split_ifs with h1 h2 h3
  · exact ⟨fun _ => ⟨(fun l h => by cases h), fun hs _ => absurd h1 hs⟩,
      (fun l h => by cases h)⟩
  · exact ⟨fun _ => ⟨(fun l h => by cases h), fun _ hu => absurd h2 hu⟩,
      (fun l h => by cases h)⟩
  · exact ⟨fun _ => ⟨(fun l h => by cases h), fun _ _ => rfl⟩,
      (fun l h => by cases h)⟩
  · constructor
    · intro hempty
      rw [hempty] at h3
      exact absurd rfl h3
    · intro l h
      injection h with h
      subst h
      omega

theorem get_test_data_empty_fails_witness :
    (get_test_data (fun _ => 1) []).1 = Except.error CorpusError.emptyCorpus :=
  ((get_test_data_empty_fails (fun _ => 1) []).1 rfl).2
    (by decide) (by decide)

/-- C10: `get_test_data` fails at the per-table count assertion whenever
either test table individually has zero rows, before the corpus fetch is
ever executed, even when the corpus the fetch would return is non-empty —
so the precondition enforced is strictly stronger than non-emptiness of
the combined corpus. -/
theorem get_test_data_table_checks_first (rowCount : String → Nat)
    (corpus : List String) :
    (rowCount "sample_strings" = 0 →
      get_test_data rowCount corpus =
        (Except.error (CorpusError.emptyTable "sample_strings"),
          [DbQuery.countRows "sample_strings"])) ∧
    (rowCount "sample_strings" ≠ 0 → rowCount "unicode_characters" = 0 →
      get_test_data rowCount corpus =
        (Except.error (CorpusError.emptyTable "unicode_characters"),
          [DbQuery.countRows "sample_strings",
            DbQuery.countRows "unicode_characters"])) ∧
    ((rowCount "sample_strings" = 0 ∨ rowCount "unicode_characters" = 0) →
      (∀ l, (get_test_data rowCount corpus).1 ≠ Except.ok l) ∧
        DbQuery.fetchCorpus ∉ (get_test_data rowCount corpus).2) := by
  refine ⟨?_, ?_, ?_⟩
  · intro h1
    unfold get_test_data
    rw [if_pos h1]
  · intro h1 h2
    unfold get_test_data
    rw [if_neg h1, if_pos h2]
  · intro hz
    by_cases h1 : rowCount "sample_strings" = 0
    · have he : get_test_data rowCount corpus =
          (Except.error (CorpusError.emptyTable "sample_strings"),
            [DbQuery.countRows "sample_strings"]) := by
        unfold get_test_data
        rw [if_pos h1]
      rw [he]
      exact ⟨(fun l h => by cases h), by decide⟩
    · have h2 : rowCount "unicode_characters" = 0 := hz.resolve_left h1
      have he : get_test_data rowCount corpus =
          (Except.error (CorpusError.emptyTable "unicode_characters"),
            [DbQuery.countRows "sample_strings",
              DbQuery.countRows "unicode_characters"]) := by
        unfold get_test_data
        rw [if_neg h1, if_pos h2]
      rw [he]
      exact ⟨(fun l h => by cases h), by decide⟩

theorem get_test_data_table_checks_first_witness :
    (∀ l, (get_test_data
        (fun t => if t = "sample_strings" then 0 else 1) ["x"]).1 ≠
      Except.ok l) ∧
      DbQuery.fetchCorpus ∉ (get_test_data
        (fun t => if t = "sample_strings" then 0 else 1) ["x"]).2 :=
  (get_test_data_table_checks_first
    (fun t => if t = "sample_strings" then 0 else 1) ["x"]).2.2
    (Or.inl (by decide))

end MasterUtil
